import Mathlib

/-!
Verification development for the harnessHelpers repository (four Python
scripts).  The JSON-like data handled by the scripts is modelled by a
mutually inductive `Value` type; each script function that the claims
touch is translated here, keeping the source names where Lean allows it:

* `flatten_dict` (compareDefaultvsCustomerConfigHarness.py, lines 50-75),
* `compare_configs` / its key classifier (same file, lines 77-126),
* the pagination loop of `HarnessAPIClient.get_organizations`
  (pipelinesByOrg.py lines 101-123, pipelineAppIDs.py lines 99-120),
* the response-shape extraction of `HarnessAPIClient.get_pipelines_in_project`
  (pipelinesByOrg.py lines 222-259, pipelineAppIDs.py lines 186-208),
* the environment-variable validation of each entry point,
* `extract_app_ids_from_yaml` (pipelineAppIDs.py lines 264-318), with the
  external pyyaml calls (`yaml.safe_load`, `yaml.dump`) passed in as
  function parameters.
-/

/- JSON-like values (the decoded API payloads all scripts operate on).
Python dicts are `obj` (an ordered field list), Python lists are `arr`. -/
mutual
inductive Value where
  | null
  | bool (b : Bool)
  | num (n : Int)
  | str (s : String)
  | arr (xs : ValueSeq)
  | obj (fields : ValueFields)
  deriving DecidableEq

inductive ValueSeq where
  | nil
  | cons (hd : Value) (tl : ValueSeq)
  deriving DecidableEq

inductive ValueFields where
  | nil
  | cons (key : String) (val : Value) (tl : ValueFields)
  deriving DecidableEq
end

def ValueSeq.ofList : List Value → ValueSeq
  | [] => .nil
  | v :: vs => .cons v (ValueSeq.ofList vs)

def ValueFields.ofList : List (String × Value) → ValueFields
  | [] => .nil
  | (k, v) :: fs => .cons k v (ValueFields.ofList fs)

def ValueSeq.toList : ValueSeq → List Value
  | .nil => []
  | .cons v rest => v :: rest.toList

/-- `isinstance(v, dict)` -/
def Value.isObjB : Value → Bool
  | .obj _ => true
  | _ => false

/-- `isinstance(v, list)` -/
def Value.isArrB : Value → Bool
  | .arr _ => true
  | _ => false

/-- a scalar in the sense of the spec: string, number, boolean or null -/
def Value.isScalarB (v : Value) : Bool := !v.isObjB && !v.isArrB

/-- Python truthiness of a decoded JSON value (`bool(v)`): None, False, 0,
empty string, empty list and empty dict are falsy, everything else truthy. -/
def Value.truthy : Value → Bool
  | .null => false
  | .bool b => b
  | .num n => n != 0
  | .str s => s != ""
  | .arr .nil => false
  | .arr (.cons _ _) => true
  | .obj .nil => false
  | .obj (.cons _ _ _) => true

/-- first-match lookup among a dict's fields (`d[k]` / `d.get(k)`). -/
def ValueFields.lookup : ValueFields → String → Option Value
  | .nil, _ => none
  | .cons k v rest, key => if k = key then some v else ValueFields.lookup rest key

/-- `v.get(key)` when `v` is a dict, `none` otherwise. -/
def Value.getField (v : Value) (key : String) : Option Value :=
  match v with
  | .obj fs => fs.lookup key
  | _ => none

/-- `key in v` for a dict `v`. -/
def Value.hasField (v : Value) (key : String) : Bool := (v.getField key).isSome

def Value.listItems : Value → List Value
  | .arr xs => xs.toList
  | _ => []

def ValueFields.append : ValueFields → ValueFields → ValueFields
  | .nil, gs => gs
  | .cons k v fs, gs => .cons k v (ValueFields.append fs gs)

def ValueFields.keyList : ValueFields → List String
  | .nil => []
  | .cons k _ rest => k :: keyList rest

/- ------------------------------------------------------------------
CPython dict construction `dict(items)`: first occurrence of a key fixes
its position, a later pair with the same key overwrites the value.
Used by `flatten_dict`, which ends with `return dict(items)`.
------------------------------------------------------------------- -/

def dictInsert (acc : List (String × Value)) (k : String) (v : Value) :
    List (String × Value) :=
  if (acc.lookup k).isSome then
    acc.map (fun p => if p.1 = k then (k, v) else p)
  else
    acc ++ [(k, v)]

def dictOfItems (items : List (String × Value)) : List (String × Value) :=
  items.foldl (fun acc p => dictInsert acc p.1 p.2) []

/- ------------------------------------------------------------------
flatten_dict, compareDefaultvsCustomerConfigHarness.py lines 50-75.

`flattenLoop` is the `for k, v in d.items()` accumulation loop building
`items`; the recursive calls `flatten_dict(v, new_key, sep=sep).items()`
appear as `dictOfItems (flattenLoop ...)` because the source recursion
returns `dict(items)` and is immediately turned back into an item list.
`flattenSeq` is the inner `for i, item in enumerate(v)` loop.
------------------------------------------------------------------- -/

mutual
def flattenLoop (d : ValueFields) (parent_key : String) (sep : String) :
    List (String × Value) :=
  match d with
  | .nil => []
  | .cons k v rest =>
    let new_key := if parent_key = "" then k else parent_key ++ sep ++ k
    (match v with
     | .obj fields => dictOfItems (flattenLoop fields new_key sep)
     | .arr xs => flattenSeq new_key sep 0 xs
     | sv => [(new_key, sv)]) ++ flattenLoop rest parent_key sep

def flattenSeq (new_key : String) (sep : String) (i : Nat) (xs : ValueSeq) :
    List (String × Value) :=
  match xs with
  | .nil => []
  | .cons item rest =>
    (match item with
     | .obj fields => dictOfItems (flattenLoop fields (new_key ++ "[" ++ toString i ++ "]") sep)
     | sv => [(new_key ++ "[" ++ toString i ++ "]", sv)]) ++ flattenSeq new_key sep (i + 1) rest
end

/-- `flatten_dict(d, parent_key='', sep='.')` (the returned `dict(items)`). -/
def flatten_dict (d : ValueFields) (parent_key : String := "") (sep : String := ".") :
    List (String × Value) :=
  dictOfItems (flattenLoop d parent_key sep)

/- ------------------------------------------------------------------
String order.  Python's `sorted` compares strings lexicographically by
code point; `strLe` is exactly that order, written out so that it
evaluates inside the kernel.
------------------------------------------------------------------- -/

def listCharLe : List Char → List Char → Bool
  | [], _ => true
  | _ :: _, [] => false
  | a :: as, b :: bs => if a = b then listCharLe as bs else decide (a.toNat < b.toNat)

def strLe (a b : String) : Bool := listCharLe a.toList b.toList

/- ------------------------------------------------------------------
compare_configs, compareDefaultvsCustomerConfigHarness.py lines 77-126.
------------------------------------------------------------------- -/

/-- the `'<NOT_SET>'` default used by `flat_default.get(key, '<NOT_SET>')`. -/
def notSet : Value := .str "<NOT_SET>"

/-- A flattened configuration: the Python `Dict[str, Any]` produced by
`flatten_dict`, keys unique by construction. -/
abbrev FlatConfig := List (String × Value)

/-- The four partition lists built by the classification loop of
`compare_configs` (lines 110-126), in the order each key is appended. -/
structure DiffResult where
  only_in_default : List (String × Value)
  only_in_customer : List (String × Value)
  different_values : List (String × Value × Value)
  same_values : List (String × Value)
  deriving DecidableEq

def DiffResult.allKeys (r : DiffResult) : List String :=
  r.only_in_default.map Prod.fst ++ r.only_in_customer.map Prod.fst ++
    r.different_values.map Prod.fst ++ r.same_values.map Prod.fst

/-- `sorted(set(flat_default.keys()) | set(flat_customer.keys()))` -/
def sortedKeys (flat_default flat_customer : FlatConfig) : List String :=
  List.insertionSort (fun a b => strLe a b = true)
    ((flat_default.map Prod.fst ++ flat_customer.map Prod.fst).dedup)

/-- the body of `for key in sorted(all_keys)` (lines 115-126): presence in
the customer map is tested first, then presence in the default map, then
value equality. -/
def classifyKeys (flat_default flat_customer : FlatConfig) : List String → DiffResult
  | [] => ⟨[], [], [], []⟩
  | key :: rest =>
    let r := classifyKeys flat_default flat_customer rest
    let default_val := (List.lookup key flat_default).getD notSet
    let customer_val := (List.lookup key flat_customer).getD notSet
    if (List.lookup key flat_customer).isSome = false then
      ⟨(key, default_val) :: r.only_in_default, r.only_in_customer,
        r.different_values, r.same_values⟩
    else if (List.lookup key flat_default).isSome = false then
      ⟨r.only_in_default, (key, customer_val) :: r.only_in_customer,
        r.different_values, r.same_values⟩
    else if default_val ≠ customer_val then
      ⟨r.only_in_default, r.only_in_customer,
        (key, default_val, customer_val) :: r.different_values, r.same_values⟩
    else
      ⟨r.only_in_default, r.only_in_customer,
        r.different_values, (key, default_val) :: r.same_values⟩

/-- The whole key-level diff of `compare_configs`. -/
def compare_flat (flat_default flat_customer : FlatConfig) : DiffResult :=
  classifyKeys flat_default flat_customer (sortedKeys flat_default flat_customer)

/-- What `compare_configs` does after printing the banner: either the
short-circuit "using DEFAULT configuration" report (lines 93-97) or the
key-level diff of the flattened data fields. -/
inductive CompareOutcome where
  | usingDefaults (default_data : Value)
  | compared (r : DiffResult)
  deriving DecidableEq

def Value.asFields : Value → ValueFields
  | .obj fs => fs
  | _ => .nil

def compare_configs (default_config customer_config : Value) : CompareOutcome :=
  let customer_data := (customer_config.getField "data").getD (.obj .nil)
  let default_data := (default_config.getField "data").getD (.obj .nil)
  if customer_data.truthy = false then
    .usingDefaults default_data
  else
    let flat_default := flatten_dict default_data.asFields
    let flat_customer := flatten_dict customer_data.asFields
    .compared (compare_flat flat_default flat_customer)

/- ------------------------------------------------------------------
Pagination walker: HarnessAPIClient.get_organizations,
pipelinesByOrg.py lines 101-123 and (identically) pipelineAppIDs.py
lines 99-120.  `fetch page` stands for
`self._make_request('GET', endpoint, params={... 'pageIndex': page})`,
returning `none` for the `None` failure result.  The Python loop has no
fuel; the `fuel` argument is an upper bound on iterations used to express
the loop as a total function, and every theorem quantifies over all
sufficiently large fuels.  The second component of the result counts the
fetch calls performed.
------------------------------------------------------------------- -/

def truthyOpt : Option Value → Bool
  | none => false
  | some v => v.truthy

/-- the test `if not response or not response.get('data'): break` together
with the subsequent `page_data = response['data']`: `some page_data` when
the loop continues past line 109, `none` when it breaks there. -/
def respData (response : Option Value) : Option Value :=
  match response with
  | none => none
  | some r =>
    if r.truthy = false then none
    else
      match r.getField "data" with
      | none => none
      | some d => if d.truthy = false then none else some d

def walkPages (fetch : Nat → Option Value) : Nat → Nat → List Value × Nat
  | 0, _ => ([], 0)
  | fuel + 1, page =>
    match respData (fetch page) with
    | none => ([], 1)
    | some page_data =>
      if truthyOpt (page_data.getField "content") = false then ([], 1)
      else
        let content := ((page_data.getField "content").getD .null).listItems
        if ((page_data.getField "last").getD (.bool true)).truthy then (content, 1)
        else
          let rest := walkPages fetch fuel (page + 1)
          (content ++ rest.1, rest.2 + 1)

/-- `get_organizations` (and the identical `get_projects_in_org`): run the
pagination loop starting from page 0. -/
def get_organizations (fetch : Nat → Option Value) (fuel : Nat) : List Value × Nat :=
  walkPages fetch fuel 0

/-- the disjunction of the three break conditions as evaluated on the very
first response: absent/falsy response or data, falsy content list, or
truthy last-page flag (defaulting to true when absent). -/
def stopsImmediately (response : Option Value) : Bool :=
  match respData response with
  | none => true
  | some d =>
    !(truthyOpt (d.getField "content")) || ((d.getField "last").getD (.bool true)).truthy

/-- `ceil(t / s)` on naturals. -/
def ceilDivNat (t s : Nat) : Nat := (t + s - 1) / s

/-- A well-behaved server holding `total` items served `size` per page:
page `p` carries items `p*size` to `min ((p+1)*size) total`, and its
last-page flag is set exactly on the final chunk. -/
def serverFetch (total size : Nat) (item : Nat → Value) (page : Nat) : Option Value :=
  some (.obj (.cons "data"
    (.obj (.cons "content"
      (.arr (ValueSeq.ofList
        ((List.range (min ((page + 1) * size) total - page * size)).map
          (fun j => item (page * size + j)))))
      (.cons "last" (.bool (decide (total ≤ (page + 1) * size))) .nil)))
    .nil))

/- ------------------------------------------------------------------
get_pipelines_in_project response handling.
pipelinesByOrg.py lines 233-252 (with the extra `totalElements` branch)
and pipelineAppIDs.py lines 195-203 (without it).
------------------------------------------------------------------- -/

/-- `data = response.get('data', response)` -/
def dataOf (response : Value) : Value := (response.getField "data").getD response

/-- item-list extraction of pipelinesByOrg.py (lines 237-252): `some` is a
returned list, `none` is the fall-through that prints the
unrecognized-structure diagnostic and tries the next approach. -/
def extract_pipelines_list (data : Value) : Option Value :=
  match data with
  | .arr _ => some data
  | _ =>
    if truthyOpt (data.getField "content") then data.getField "content"
    else if truthyOpt (data.getField "pipelines") then data.getField "pipelines"
    else if data.hasField "totalElements" then some ((data.getField "content").getD (.arr .nil))
    else none

/-- item-list extraction of pipelineAppIDs.py (lines 198-203), which has
no `totalElements` branch. -/
def extract_pipelines_appids (data : Value) : Option Value :=
  match data with
  | .arr _ => some data
  | _ =>
    if truthyOpt (data.getField "content") then data.getField "content"
    else if truthyOpt (data.getField "pipelines") then data.getField "pipelines"
    else none

/-- the `for approach in approaches` loop: each list element is one
approach's `_make_request` result; a truthy response whose shape is
recognized ends the loop, anything else falls through, and exhaustion
returns the empty list. -/
def tryApproaches (extract : Value → Option Value) : List (Option Value) → Value
  | [] => .arr .nil
  | response :: rest =>
    match response with
    | some r =>
      if r.truthy then
        match extract (dataOf r) with
        | some pipelines => pipelines
        | none => tryApproaches extract rest
      else tryApproaches extract rest
    | none => tryApproaches extract rest

/- ------------------------------------------------------------------
Environment-variable validation of the four entry points.  Each takes the
values of the two environment variables (`none` = unset), and returns
`some 1` when the script exits with code 1 before any client is built,
`none` when execution proceeds to the network phase.
------------------------------------------------------------------- -/

/-- Python `not x` for an optional string (unset or empty are falsy). -/
def pyFalsyStr : Option String → Bool
  | none => true
  | some s => s = ""

/-- compareDefaultvsCustomerConfigHarness.py lines 16-20:
`if not account_id or not api_key: raise ValueError(...)` — `true` means
the ValueError is raised before `requests.get` (an uncaught ValueError
terminates the process with exit code 1). -/
def get_harness_config_raises (account_id api_key : Option String) : Bool :=
  pyFalsyStr account_id || pyFalsyStr api_key

/-- pipelinesByOrg.py lines 269-284: the token is tested for falsiness but
the account id is only compared against the editing placeholder. -/
def pipelinesByOrg_exit (api_token account_id : Option String) : Option Nat :=
  if pyFalsyStr api_token then some 1
  else if account_id = some "your_account_id_here" then some 1
  else none

/-- pipelineAppIDs.py lines 328-339: both variables are tested. -/
def pipelineAppIDs_exit (api_token account_id : Option String) : Option Nat :=
  if pyFalsyStr api_token then some 1
  else if pyFalsyStr account_id then some 1
  else none

/-- getHarnessSupportImagesCustomerConfig.py lines 5-24: the module reads
both variables and issues the request with no validation at all. -/
def supportImages_exit (account_id api_key : Option String) : Option Nat :=
  none

/- ------------------------------------------------------------------
extract_app_ids_from_yaml, pipelineAppIDs.py lines 264-318.

The five regexes all have the shape
`KEY:\s*["']?([^"'\s\n]+)["']?` with IGNORECASE; `findall` scans the text
left to right for non-overlapping matches of that shape and returns the
captured tokens.  The external pyyaml calls are passed in as parameters:
`safe_load` returns `none` for a `yaml.YAMLError`, and `dump` is
`yaml.dump`.
------------------------------------------------------------------- -/

/-- membership in the regex class `\s` (ASCII space, tab, newline,
carriage return, vertical tab, form feed). -/
def isPySpace (c : Char) : Bool :=
  c = ' ' || c = '\t' || c = '\n' || c = '\r' || c.toNat = 11 || c.toNat = 12

/-- a double or single quote, the characters of the class `["']`. -/
def isQuoteChar (c : Char) : Bool := c = '"' || c.toNat = 39

/-- membership in the capture class `[^"'\s\n]`. -/
def isTokenChar (c : Char) : Bool := !(isQuoteChar c || isPySpace c)

/-- the optional-quote element `["']?`: consume one quote if present. -/
def dropOptQuote : List Char → List Char
  | [] => []
  | c :: cs => if isQuoteChar c then cs else c :: cs

/-- case-insensitive literal match of the key part of a pattern
(for example `appid:`) at the head of the text; returns the rest. -/
def matchKeyCI : List Char → List Char → Option (List Char)
  | [], s => some s
  | _ :: _, [] => none
  | k :: ks, c :: cs => if k.toLower = c.toLower then matchKeyCI ks cs else none

/-- `re.findall` for one pattern: at each position try to match the key,
then `\s*`, an optional quote, a non-empty token, an optional quote;
collect the token and resume after the match, otherwise advance one
character.  Structurally recursive on a fuel that the wrapper sets to the
text length, which at least one consumed character per step makes
sufficient. -/
def findallAux (key : List Char) : Nat → List Char → List String
  | 0, _ => []
  | _, [] => []
  | fuel + 1, c :: cs =>
    match matchKeyCI key (c :: cs) with
    | none => findallAux key fuel cs
    | some rest =>
      let afterSpaces := rest.dropWhile isPySpace
      let afterQuote := dropOptQuote afterSpaces
      let tok := afterQuote.takeWhile isTokenChar
      if tok.isEmpty then findallAux key fuel cs
      else tok.asString :: findallAux key fuel (dropOptQuote (afterQuote.dropWhile isTokenChar))

def findall (pat text : String) : List String :=
  findallAux pat.toList text.toList.length text.toList

/-- the key parts of the five patterns of lines 284-290 (and the identical
fallback list of lines 306-311). -/
def pipelinePatterns : List String :=
  ["appid:", "app_id:", "appId:", "application_id:", "applicationId:"]

/-- the `for pattern in patterns: app_ids.update(re.findall(...))` loop,
before deduplication. -/
def scanForAppIds (text : String) : List String :=
  pipelinePatterns.foldl (fun acc pat => acc ++ findall pat text) []

/-- a Python `set` built by successive `add`/`update`. -/
def pySetOfList (l : List String) : Finset String :=
  l.foldl (fun s x => insert x s) ∅

/- Python `str(value)` / `repr` on decoded YAML values; only scalar tag
values occur in the claims, containers are rendered Python-style for
completeness. -/
mutual
def pyRepr : Value → String
  | .null => "None"
  | .bool true => "True"
  | .bool false => "False"
  | .num n => toString n
  | .str s => "'" ++ s ++ "'"
  | .arr xs => "[" ++ pyReprSeq xs ++ "]"
  | .obj fs => "\x7b" ++ pyReprFields fs ++ "\x7d"

def pyReprSeq : ValueSeq → String
  | .nil => ""
  | .cons v .nil => pyRepr v
  | .cons v rest => pyRepr v ++ ", " ++ pyReprSeq rest

def pyReprFields : ValueFields → String
  | .nil => ""
  | .cons k v .nil => "'" ++ k ++ "': " ++ pyRepr v
  | .cons k v rest => "'" ++ k ++ "': " ++ pyRepr v ++ ", " ++ pyReprFields rest
end

def pyStr : Value → String
  | .str s => s
  | v => pyRepr v

def listStartsWith : List Char → List Char → Bool
  | [], _ => true
  | _ :: _, [] => false
  | n :: ns, h :: hs => n = h && listStartsWith ns hs

/-- Python substring containment `needle in hay`. -/
def listContains (needle : List Char) : List Char → Bool
  | [] => needle.isEmpty
  | c :: cs => listStartsWith needle (c :: cs) || listContains needle cs

/-- `'appid' in key.lower() or 'app_id' in key.lower()` (line 301). -/
def keyMatches (key : String) : Bool :=
  listContains "appid".toList (key.toList.map Char.toLower)
    || listContains "app_id".toList (key.toList.map Char.toLower)

/-- the `for key, value in tags.items()` loop of lines 300-302, adding
`str(value)` for every matching tag key. -/
def tagsFold : ValueFields → Finset String → Finset String
  | .nil, s => s
  | .cons k v rest, s => tagsFold rest (if keyMatches k then insert (pyStr v) s else s)

/-- `yaml_data.get('tags', {})` guarded by `isinstance(tags, dict)`
(lines 297-299): the tag fields when the document is a dict with a dict
`tags` member, nothing otherwise. -/
def tagFieldsOf (v : Value) : ValueFields :=
  match v with
  | .obj fs =>
    match (fs.lookup "tags").getD (.obj .nil) with
    | .obj tf => tf
    | _ => .nil
  | _ => .nil

/-- `extract_app_ids_from_yaml(yaml_content)` with the pyyaml entry points
passed in: on a parse error the raw content is scanned; on success the
re-serialized text is scanned when the document is truthy (else the raw
content), and matching tag keys contribute `str(value)`. -/
def extract_app_ids_from_yaml (safe_load : String → Option Value) (dump : Value → String)
    (yaml_content : String) : Finset String :=
  match safe_load yaml_content with
  | none => pySetOfList (scanForAppIds yaml_content)
  | some yaml_data =>
    let yaml_str := if yaml_data.truthy then dump yaml_data else yaml_content
    let fromPatterns := pySetOfList (scanForAppIds yaml_str)
    tagsFold (tagFieldsOf yaml_data) fromPatterns

/- ==================================================================
Theorems.
================================================================== -/

theorem flattenLoop_tail_congr (k : String) (v : Value) (t u : ValueFields) (pk sep : String)
    (h : flattenLoop t pk sep = flattenLoop u pk sep) :
    flattenLoop (.cons k v t) pk sep = flattenLoop (.cons k v u) pk sep := by
  cases v <;> exact congrArg (HAppend.hAppend _) h

theorem flattenLoop_append_empty_obj :
    ∀ (fs : ValueFields) (k : String) (gs : ValueFields) (pk sep : String),
    flattenLoop (fs.append (.cons k (.obj .nil) gs)) pk sep = flattenLoop (fs.append gs) pk sep
  | .nil, _, _, _, _ => rfl
  | .cons k' v' fs', k, gs, pk, sep =>
    flattenLoop_tail_congr k' v' _ _ pk sep (flattenLoop_append_empty_obj fs' k gs pk sep)

theorem flattenLoop_append_empty_arr :
    ∀ (fs : ValueFields) (k : String) (gs : ValueFields) (pk sep : String),
    flattenLoop (fs.append (.cons k (.arr .nil) gs)) pk sep = flattenLoop (fs.append gs) pk sep
  | .nil, _, _, _, _ => rfl
  | .cons k' v' fs', k, gs, pk, sep =>
    flattenLoop_tail_congr k' v' _ _ pk sep (flattenLoop_append_empty_arr fs' k gs pk sep)

/-- C10: a member whose value is an empty mapping or an empty sequence
contributes no key at all to the flattened result, wherever it occurs;
in particular `flatten_dict` of a single such member is the empty mapping. -/
theorem flatten_drops_empty_members :
    (∀ (fs : ValueFields) (k : String) (gs : ValueFields) (pk sep : String),
        flatten_dict (fs.append (.cons k (.obj .nil) gs)) pk sep
          = flatten_dict (fs.append gs) pk sep)
  ∧ (∀ (fs : ValueFields) (k : String) (gs : ValueFields) (pk sep : String),
        flatten_dict (fs.append (.cons k (.arr .nil) gs)) pk sep
          = flatten_dict (fs.append gs) pk sep)
  ∧ flatten_dict (.ofList [("a", .obj .nil)]) = []
  ∧ flatten_dict (.ofList [("a", .arr .nil)]) = [] := by
  refine ⟨?_, ?_, rfl, rfl⟩ <;> intro fs k gs pk sep
  · exact congrArg dictOfItems (flattenLoop_append_empty_obj fs k gs pk sep)
  · exact congrArg dictOfItems (flattenLoop_append_empty_arr fs k gs pk sep)

/-- C1: a mapping member `k` under prefix `p` is flattened under key
`p.k` (just `k` at the root), a sequence element at index `i` under key
`p[i]`, mappings inside sequences are recursed into with the bracketed
prefix as their new root, and the two concrete examples of the spec hold. -/
theorem flatten_dict_rules :
    (∀ (pk sep k : String) (sv : Value) (rest : ValueFields),
        sv.isObjB = false → sv.isArrB = false →
        flattenLoop (.cons k sv rest) pk sep
          = ((if pk = "" then k else pk ++ sep ++ k), sv) :: flattenLoop rest pk sep)
  ∧ (∀ (pk sep k : String) (fields rest : ValueFields),
        flattenLoop (.cons k (.obj fields) rest) pk sep
          = dictOfItems (flattenLoop fields (if pk = "" then k else pk ++ sep ++ k) sep)
              ++ flattenLoop rest pk sep)
  ∧ (∀ (nk sep : String) (i : Nat) (fields : ValueFields) (rest : ValueSeq),
        flattenSeq nk sep i (.cons (.obj fields) rest)
          = dictOfItems (flattenLoop fields (nk ++ "[" ++ toString i ++ "]") sep)
              ++ flattenSeq nk sep (i + 1) rest)
  ∧ (∀ (nk sep : String) (i : Nat) (sv : Value) (rest : ValueSeq),
        sv.isObjB = false →
        flattenSeq nk sep i (.cons sv rest)
          = (nk ++ "[" ++ toString i ++ "]", sv) :: flattenSeq nk sep (i + 1) rest)
  ∧ flatten_dict (.ofList [("a", .obj (.ofList [("b", .num 1)]))]) = [("a.b", .num 1)]
  ∧ flatten_dict (.ofList [("a", .arr (.ofList [.obj (.ofList [("b", .num 1)]), .num 2]))])
      = [("a[0].b", .num 1), ("a[1]", .num 2)] := by
  refine ⟨?_, fun _ _ _ _ _ => rfl, fun _ _ _ _ _ => rfl, ?_, by decide, by decide⟩
  · intro pk sep k sv rest h1 h2
    cases sv with
    | arr xs => exact absurd h2 (by simp [Value.isArrB])
    | obj fs => exact absurd h1 (by simp [Value.isObjB])
    | null => rfl
    | bool b => rfl
    | num n => rfl
    | str s => rfl
  · intro nk sep i sv rest h1
    cases sv with
    | obj fs => exact absurd h1 (by simp [Value.isObjB])
    | null => rfl
    | bool b => rfl
    | num n => rfl
    | str s => rfl
    | arr xs => rfl

/-- Witness for C1 at concrete inputs. -/
theorem flatten_dict_rules_inst :
    flattenLoop (.cons "k" (.str "v") .nil) "p" "." = [("p.k", .str "v")]
  ∧ flattenSeq "p" "." 0 (.cons (.num 7) .nil) = [("p[0]", .num 7)] :=
  ⟨(flatten_dict_rules.1 "p" "." "k" (.str "v") .nil rfl rfl).trans (by decide),
   (flatten_dict_rules.2.2.2.1 "p" "." 0 (.num 7) .nil rfl).trans (by decide)⟩

theorem dictInsert_snd_mem (acc : List (String × Value)) (k : String) (v : Value) :
    ∀ p ∈ dictInsert acc k v, p.2 = v ∨ p.2 ∈ acc.map Prod.snd := by
  intro p hp
  unfold dictInsert at hp
  split at hp
  · rcases List.mem_map.1 hp with ⟨q, hq, hpq⟩
    by_cases h : q.1 = k
    · left; rw [← hpq]; simp [h]
    · right; rw [← hpq]; simp [h]; exact ⟨q.1, hq⟩
  · rcases List.mem_append.1 hp with h | h
    · right; exact List.mem_map_of_mem Prod.snd h
    · left; rw [List.mem_singleton.1 h]

theorem foldl_dictInsert_snd :
    ∀ (l acc : List (String × Value)) (p : String × Value),
    p ∈ l.foldl (fun a q => dictInsert a q.1 q.2) acc →
    p.2 ∈ acc.map Prod.snd ∨ p.2 ∈ l.map Prod.snd
  | [], _, _, hp => .inl (List.mem_map_of_mem Prod.snd hp)
  | q :: l, acc, p, hp => by
    rcases foldl_dictInsert_snd l (dictInsert acc q.1 q.2) p hp with h | h
    · rcases List.mem_map.1 h with ⟨r, hr, hrp⟩
      rcases dictInsert_snd_mem acc q.1 q.2 r hr with h2 | h2
      · right; rw [← hrp, h2]; exact List.mem_cons_self _ _ |> List.mem_map_of_mem Prod.snd
      · left; rw [← hrp]; exact h2
    · right; rw [List.map_cons]; exact List.mem_cons_of_mem _ h

theorem dictOfItems_snd (l : List (String × Value)) (p : String × Value)
    (hp : p ∈ dictOfItems l) : p.2 ∈ l.map Prod.snd := by
  rcases foldl_dictInsert_snd l [] p hp with h | h
  · simp at h
  · exact h

mutual
theorem flattenLoop_snd_noObj : ∀ (d : ValueFields) (pk sep : String) (p : String × Value),
    p ∈ flattenLoop d pk sep → p.2.isObjB = false
  | .nil, _, _, p, hp => absurd hp (List.not_mem_nil p)
  | .cons k (.obj fields) rest, pk, sep, p, hp => by
    rcases List.mem_append.1 hp with hm | hm
    · rcases List.mem_map.1 (dictOfItems_snd _ _ hm) with ⟨q, hq, hqp⟩
      rw [← hqp]
      exact flattenLoop_snd_noObj fields _ sep q hq
    · exact flattenLoop_snd_noObj rest pk sep p hm
  | .cons k (.arr xs) rest, pk, sep, p, hp => by
    rcases List.mem_append.1 hp with hm | hm
    · exact flattenSeq_snd_noObj _ sep 0 xs p hm
    · exact flattenLoop_snd_noObj rest pk sep p hm
  | .cons k .null rest, pk, sep, p, hp => by
    rcases List.mem_append.1 hp with hm | hm
    · rw [List.mem_singleton.1 hm]; rfl
    · exact flattenLoop_snd_noObj rest pk sep p hm
  | .cons k (.bool b) rest, pk, sep, p, hp => by
    rcases List.mem_append.1 hp with hm | hm
    · rw [List.mem_singleton.1 hm]; rfl
    · exact flattenLoop_snd_noObj rest pk sep p hm
  | .cons k (.num n) rest, pk, sep, p, hp => by
    rcases List.mem_append.1 hp with hm | hm
    · rw [List.mem_singleton.1 hm]; rfl
    · exact flattenLoop_snd_noObj rest pk sep p hm
  | .cons k (.str s) rest, pk, sep, p, hp => by
    rcases List.mem_append.1 hp with hm | hm
    · rw [List.mem_singleton.1 hm]; rfl
    · exact flattenLoop_snd_noObj rest pk sep p hm

theorem flattenSeq_snd_noObj : ∀ (nk sep : String) (i : Nat) (xs : ValueSeq)
    (p : String × Value), p ∈ flattenSeq nk sep i xs → p.2.isObjB = false
  | _, _, _, .nil, p, hp => absurd hp (List.not_mem_nil p)
  | nk, sep, i, .cons (.obj fields) rest, p, hp => by
    rcases List.mem_append.1 hp with hm | hm
    · rcases List.mem_map.1 (dictOfItems_snd _ _ hm) with ⟨q, hq, hqp⟩
      rw [← hqp]
      exact flattenLoop_snd_noObj fields _ sep q hq
    · exact flattenSeq_snd_noObj nk sep (i + 1) rest p hm
  | nk, sep, i, .cons (.arr ys) rest, p, hp => by
    rcases List.mem_append.1 hp with hm | hm
    · rw [List.mem_singleton.1 hm]; rfl
    · exact flattenSeq_snd_noObj nk sep (i + 1) rest p hm
  | nk, sep, i, .cons .null rest, p, hp => by
    rcases List.mem_append.1 hp with hm | hm
    · rw [List.mem_singleton.1 hm]; rfl
    · exact flattenSeq_snd_noObj nk sep (i + 1) rest p hm
  | nk, sep, i, .cons (.bool b) rest, p, hp => by
    rcases List.mem_append.1 hp with hm | hm
    · rw [List.mem_singleton.1 hm]; rfl
    · exact flattenSeq_snd_noObj nk sep (i + 1) rest p hm
  | nk, sep, i, .cons (.num n) rest, p, hp => by
    rcases List.mem_append.1 hp with hm | hm
    · rw [List.mem_singleton.1 hm]; rfl
    · exact flattenSeq_snd_noObj nk sep (i + 1) rest p hm
  | nk, sep, i, .cons (.str s) rest, p, hp => by
    rcases List.mem_append.1 hp with hm | hm
    · rw [List.mem_singleton.1 hm]; rfl
    · exact flattenSeq_snd_noObj nk sep (i + 1) rest p hm
end

/-- C7 is false as stated: flattening a sequence nested inside a sequence
produces a value that is itself a sequence, not a scalar. -/
theorem flatten_scalar_values_cex :
    (flatten_dict (.ofList [("a", .arr (.ofList [.arr (.ofList [.num 1, .num 2])]))])).map
        Prod.snd
      = [.arr (.ofList [.num 1, .num 2])]
  ∧ Value.isScalarB (.arr (.ofList [.num 1, .num 2])) = false := by decide

/-- C7 (amended): every value of the flattened mapping is a scalar or a
sequence (a sequence element that is itself a sequence is emitted
unflattened); no key of the flattened result maps to a mapping. -/
theorem flatten_values_not_mappings (d : ValueFields) (pk sep : String)
    (p : String × Value) (hp : p ∈ flatten_dict d pk sep) :
    p.2.isObjB = false ∧ (p.2.isScalarB || p.2.isArrB) = true := by
  rcases List.mem_map.1 (dictOfItems_snd _ _ hp) with ⟨q, hq, hqp⟩
  have h3 := flattenLoop_snd_noObj d pk sep q hq
  rw [← hqp]
  refine ⟨h3, ?_⟩
  revert h3
  cases q.2 <;> simp [Value.isObjB, Value.isScalarB, Value.isArrB]

/-- Witness for the amended C7 at a concrete input. -/
theorem flatten_values_not_mappings_inst :
    Value.isObjB (Value.num 1) = false
  ∧ (Value.isScalarB (Value.num 1) || Value.isArrB (Value.num 1)) = true :=
  flatten_values_not_mappings (.ofList [("a", .num 1)]) "" "." ("a", .num 1) (by decide)

theorem lookup_isSome_iff (l : FlatConfig) (k : String) :
    (List.lookup k l).isSome = true ↔ k ∈ l.map Prod.fst := by
  induction l with
  | nil => simp [List.lookup]
  | cons p rest ih =>
    obtain ⟨a, b⟩ := p
    by_cases h : k = a
    · subst h; simp [List.lookup]
    · have hba : (k == a) = false := beq_eq_false_iff_ne.2 h
      simp [List.lookup, hba, ih, h]

theorem charEq_of_toNat_eq {a b : Char} (h : a.toNat = b.toNat) : a = b :=
  Char.ext (UInt32.ext h)

theorem listCharLe_total : ∀ as bs : List Char, listCharLe as bs = true ∨ listCharLe bs as = true
  | [], _ => .inl rfl
  | _ :: _, [] => .inr rfl
  | a :: as, b :: bs => by
    by_cases hab : a = b
    · subst hab
      rcases listCharLe_total as bs with h | h
      · left; simp [listCharLe, h]
      · right; simp [listCharLe, h]
    · have hba : ¬ b = a := fun h => hab h.symm
      rcases Nat.lt_or_ge a.toNat b.toNat with h | h
      · left; simp [listCharLe, hab, h]
      · have hne : a.toNat ≠ b.toNat := fun hh => hab (charEq_of_toNat_eq hh)
        have hlt : b.toNat < a.toNat := Nat.lt_of_le_of_ne h (fun hh => hne hh.symm)
        right; simp [listCharLe, hba, hlt]

theorem listCharLe_trans : ∀ as bs cs : List Char,
    listCharLe as bs = true → listCharLe bs cs = true → listCharLe as cs = true
  | [], _, _, _, _ => rfl
  | _ :: _, [], _, h1, _ => by simp [listCharLe] at h1
  | _ :: _, _ :: _, [], _, h2 => by simp [listCharLe] at h2
  | a :: as, b :: bs, c :: cs, h1, h2 => by
    by_cases hab : a = b <;> by_cases hbc : b = c
    · subst hab; subst hbc
      simp only [listCharLe, if_pos rfl] at h1 h2 ⊢
      exact listCharLe_trans as bs cs h1 h2
    · subst hab
      have h2' : a.toNat < c.toNat := by simpa [listCharLe, hbc] using h2
      have hac : ¬ a = c := fun h => Nat.lt_irrefl _ (h ▸ h2')
      simp [listCharLe, hac, h2']
    · subst hbc
      have h1' : a.toNat < b.toNat := by simpa [listCharLe, hab] using h1
      simp [listCharLe, hab, h1']
    · have h1' : a.toNat < b.toNat := by simpa [listCharLe, hab] using h1
      have h2' : b.toNat < c.toNat := by simpa [listCharLe, hbc] using h2
      have h3 : a.toNat < c.toNat := Nat.lt_trans h1' h2'
      have hac : ¬ a = c := fun h => Nat.lt_irrefl _ (h ▸ h3)
      simp [listCharLe, hac, h3]

theorem listCharLe_antisymm : ∀ as bs : List Char,
    listCharLe as bs = true → listCharLe bs as = true → as = bs
  | [], [], _, _ => rfl
  | [], _ :: _, _, h2 => by simp [listCharLe] at h2
  | _ :: _, [], h1, _ => by simp [listCharLe] at h1
  | a :: as, b :: bs, h1, h2 => by
    by_cases hab : a = b
    · subst hab
      simp only [listCharLe, if_pos rfl] at h1 h2
      rw [listCharLe_antisymm as bs h1 h2]
    · have hba : ¬ b = a := fun h => hab h.symm
      have h1' : a.toNat < b.toNat := by simpa [listCharLe, hab] using h1
      have h2' : b.toNat < a.toNat := by simpa [listCharLe, hba] using h2
      exact absurd (Nat.lt_trans h1' h2') (Nat.lt_irrefl _)

theorem strLe_total (a b : String) : strLe a b = true ∨ strLe b a = true :=
  listCharLe_total a.toList b.toList

theorem strLe_trans {a b c : String} (h1 : strLe a b = true) (h2 : strLe b c = true) :
    strLe a c = true :=
  listCharLe_trans a.toList b.toList c.toList h1 h2

theorem strLe_antisymm {a b : String} (h1 : strLe a b = true) (h2 : strLe b a = true) :
    a = b :=
  String.ext (listCharLe_antisymm a.toList b.toList h1 h2)

theorem sortedKeys_sorted (A B : FlatConfig) :
    (sortedKeys A B).Sorted (fun a b => strLe a b = true) := by
  haveI : IsTotal String (fun a b => strLe a b = true) := ⟨strLe_total⟩
  haveI : IsTrans String (fun a b => strLe a b = true) := ⟨fun _ _ _ => strLe_trans⟩
  exact List.sorted_insertionSort _ _

theorem sortedKeys_perm (A B : FlatConfig) :
    (sortedKeys A B).Perm ((A.map Prod.fst ++ B.map Prod.fst).dedup) :=
  List.perm_insertionSort _ _

theorem mem_sortedKeys (A B : FlatConfig) (k : String) :
    k ∈ sortedKeys A B ↔
      ((List.lookup k A).isSome = true ∨ (List.lookup k B).isSome = true) := by
  rw [(sortedKeys_perm A B).mem_iff, List.mem_dedup, List.mem_append,
    lookup_isSome_iff, lookup_isSome_iff]

theorem sortedKeys_nodup (A B : FlatConfig) : (sortedKeys A B).Nodup :=
  (sortedKeys_perm A B).symm.nodup (List.nodup_dedup _)

theorem sortedKeys_comm (A B : FlatConfig) : sortedKeys B A = sortedKeys A B := by
  haveI : IsAntisymm String (fun a b => strLe a b = true) := ⟨fun _ _ => strLe_antisymm⟩
  refine List.eq_of_perm_of_sorted ?_ (sortedKeys_sorted B A) (sortedKeys_sorted A B)
  exact (sortedKeys_perm B A).trans
    ((List.perm_append_comm.dedup).trans (sortedKeys_perm A B).symm)

theorem allKeys_perm_classify (A B : FlatConfig) (ks : List String) :
    ((classifyKeys A B ks).allKeys).Perm ks := by
  rw [List.perm_iff_count]
  intro a
  induction ks with
  | nil => rfl
  | cons key rest ih =>
    simp only [classifyKeys]
    split
    · simp only [DiffResult.allKeys, List.map_cons, List.count_append, List.count_cons] at ih ⊢
      by_cases hak : a = key <;> simp [hak] at ih ⊢ <;> omega
    · split
      · simp only [DiffResult.allKeys, List.map_cons, List.count_append, List.count_cons]
          at ih ⊢
        by_cases hak : a = key <;> simp [hak] at ih ⊢ <;> omega
      · split
        · simp only [DiffResult.allKeys, List.map_cons, List.count_append, List.count_cons]
            at ih ⊢
          by_cases hak : a = key <;> simp [hak] at ih ⊢ <;> omega
        · simp only [DiffResult.allKeys, List.map_cons, List.count_append, List.count_cons]
            at ih ⊢
          by_cases hak : a = key <;> simp [hak] at ih ⊢ <;> omega

theorem classify_mem_spec (A B : FlatConfig) :
    ∀ (ks : List String) (k : String),
    (k ∈ (classifyKeys A B ks).only_in_default.map Prod.fst ↔
        (k ∈ ks ∧ (List.lookup k B).isSome = false))
  ∧ (k ∈ (classifyKeys A B ks).only_in_customer.map Prod.fst ↔
        (k ∈ ks ∧ (List.lookup k B).isSome = true ∧ (List.lookup k A).isSome = false))
  ∧ (k ∈ (classifyKeys A B ks).different_values.map Prod.fst ↔
        (k ∈ ks ∧ (List.lookup k B).isSome = true ∧ (List.lookup k A).isSome = true
          ∧ (List.lookup k A).getD notSet ≠ (List.lookup k B).getD notSet))
  ∧ (k ∈ (classifyKeys A B ks).same_values.map Prod.fst ↔
        (k ∈ ks ∧ (List.lookup k B).isSome = true ∧ (List.lookup k A).isSome = true
          ∧ (List.lookup k A).getD notSet = (List.lookup k B).getD notSet))
  | [], k => by simp [classifyKeys]
  | key :: rest, k => by
    obtain ⟨ih1, ih2, ih3, ih4⟩ := classify_mem_spec A B rest k
    by_cases hk : k = key
    · subst hk
      simp only [classifyKeys]
      by_cases hB : (List.lookup k B).isSome = false
      · simp [hB, ih1, ih2, ih3, ih4]
      · rw [if_neg (by simpa using hB)]
        replace hB : (List.lookup k B).isSome = true := by
          cases h : (List.lookup k B).isSome
          · exact absurd h hB
          · rfl
        by_cases hA : (List.lookup k A).isSome = false
        · simp [hA, hB, ih1, ih2, ih3, ih4]
        · rw [if_neg (by simpa using hA)]
          replace hA : (List.lookup k A).isSome = true := by
            cases h : (List.lookup k A).isSome
            · exact absurd h hA
            · rfl
          by_cases hv : (List.lookup k A).getD notSet ≠ (List.lookup k B).getD notSet
          · simp [hv, hA, hB, ih1, ih2, ih3, ih4]
          · rw [if_neg hv]
            simp only [not_not] at hv
            simp [hv, hA, hB, ih1, ih2, ih3, ih4]
    · simp only [classifyKeys]
      split
      · simp [List.mem_cons, hk, ih1, ih2, ih3, ih4]
      · split
        · simp [List.mem_cons, hk, ih1, ih2, ih3, ih4]
        · split
          · simp [List.mem_cons, hk, ih1, ih2, ih3, ih4]
          · simp [List.mem_cons, hk, ih1, ih2, ih3, ih4]

theorem classify_swap (A B : FlatConfig) :
    ∀ ks : List String,
    (∀ k ∈ ks, (List.lookup k A).isSome = true ∨ (List.lookup k B).isSome = true) →
    classifyKeys B A ks =
      ⟨(classifyKeys A B ks).only_in_customer, (classifyKeys A B ks).only_in_default,
        (classifyKeys A B ks).different_values.map (fun t => (t.1, t.2.2, t.2.1)),
        (classifyKeys A B ks).same_values⟩
  | [], _ => rfl
  | key :: rest, hks => by
    have ih := classify_swap A B rest (fun k hk => hks k (List.mem_cons_of_mem _ hk))
    have hkey := hks key (List.mem_cons_self _ _)
    simp only [classifyKeys, ih]
    rcases hA : (List.lookup key A).isSome <;> rcases hB : (List.lookup key B).isSome
    · rcases hkey with h | h
      · exact absurd h (by simp [hA])
      · exact absurd h (by simp [hB])
    · simp [hA, hB]
    · simp [hA, hB]
    · by_cases hv : (List.lookup key A).getD notSet = (List.lookup key B).getD notSet
      · have hv' : ¬ (List.lookup key B).getD notSet ≠ (List.lookup key A).getD notSet := by
          simp [hv]
        simp [hA, hB, hv, hv']
      · have hv' : (List.lookup key B).getD notSet ≠ (List.lookup key A).getD notSet :=
          fun h => hv h.symm
        simp [hA, hB, hv, hv']

theorem classify_self (A : FlatConfig) :
    ∀ ks : List String, (∀ k ∈ ks, (List.lookup k A).isSome = true) →
    (classifyKeys A A ks).only_in_default = []
  ∧ (classifyKeys A A ks).only_in_customer = []
  ∧ (classifyKeys A A ks).different_values = []
  | [], _ => ⟨rfl, rfl, rfl⟩
  | key :: rest, hks => by
    have ih := classify_self A rest (fun k hk => hks k (List.mem_cons_of_mem _ hk))
    have hkey := hks key (List.mem_cons_self _ _)
    simp only [classifyKeys, hkey]
    simp [ih.1, ih.2.1, ih.2.2]

/-- C2: the differ iterates over the sorted union of the two key sets and
classifies each such key into exactly one of the four partitions (counted
once over all partition key lists), with only-A holding the keys present
in A only, only-B those present in B only, changed those present in both
with unequal values and unchanged those present in both with equal
values. -/
theorem compare_configs_partition (A B : FlatConfig) :
    (sortedKeys A B).Sorted (fun a b => strLe a b = true)
  ∧ (∀ k, k ∈ sortedKeys A B ↔
        ((List.lookup k A).isSome = true ∨ (List.lookup k B).isSome = true))
  ∧ (∀ k, k ∈ sortedKeys A B → ((compare_flat A B).allKeys).count k = 1)
  ∧ (∀ k, k ∉ sortedKeys A B → ((compare_flat A B).allKeys).count k = 0)
  ∧ (∀ k, k ∈ sortedKeys A B →
      ((k ∈ (compare_flat A B).only_in_default.map Prod.fst ↔
          ((List.lookup k A).isSome = true ∧ (List.lookup k B).isSome = false))
     ∧ (k ∈ (compare_flat A B).only_in_customer.map Prod.fst ↔
          ((List.lookup k B).isSome = true ∧ (List.lookup k A).isSome = false))
     ∧ (k ∈ (compare_flat A B).different_values.map Prod.fst ↔
          ((List.lookup k A).isSome = true ∧ (List.lookup k B).isSome = true
            ∧ (List.lookup k A).getD notSet ≠ (List.lookup k B).getD notSet))
     ∧ (k ∈ (compare_flat A B).same_values.map Prod.fst ↔
          ((List.lookup k A).isSome = true ∧ (List.lookup k B).isSome = true
            ∧ (List.lookup k A).getD notSet = (List.lookup k B).getD notSet)))) := by
  refine ⟨sortedKeys_sorted A B, mem_sortedKeys A B, ?_, ?_, ?_⟩
  · intro k hk
    simp only [compare_flat]
    rw [(allKeys_perm_classify A B (sortedKeys A B)).count_eq]
    exact List.count_eq_one_of_mem (sortedKeys_nodup A B) hk
  · intro k hk
    simp only [compare_flat]
    rw [(allKeys_perm_classify A B (sortedKeys A B)).count_eq]
    exact List.count_eq_zero_of_not_mem hk
  · intro k hk
    obtain ⟨s1, s2, s3, s4⟩ := classify_mem_spec A B (sortedKeys A B) k
    have hmem := (mem_sortedKeys A B k).1 hk
    simp only [compare_flat]
    refine ⟨?_, ?_, ?_, ?_⟩
    · rw [s1]
      constructor
      · rintro ⟨-, hB⟩
        exact ⟨hmem.resolve_right (by simp [hB]), hB⟩
      · rintro ⟨hA, hB⟩
        exact ⟨hk, hB⟩
    · rw [s2]
      exact ⟨fun h => h.2, fun h => ⟨hk, h⟩⟩
    · rw [s3]
      exact ⟨fun h => ⟨h.2.2.1, h.2.1, h.2.2.2⟩, fun h => ⟨hk, h.2.1, h.1, h.2.2⟩⟩
    · rw [s4]
      exact ⟨fun h => ⟨h.2.2.1, h.2.1, h.2.2.2⟩, fun h => ⟨hk, h.2.1, h.1, h.2.2⟩⟩

/-- Witness for C2 at a concrete pair of flattened configurations. -/
theorem compare_configs_partition_inst :
    ("a" ∈ sortedKeys [("a", Value.num 1)] [("b", Value.num 2)])
  ∧ ((compare_flat [("a", Value.num 1)] [("b", Value.num 2)]).allKeys).count "a" = 1 := by
  have h := compare_configs_partition [("a", Value.num 1)] [("b", Value.num 2)]
  have hmem : "a" ∈ sortedKeys [("a", Value.num 1)] [("b", Value.num 2)] := by decide
  exact ⟨hmem, h.2.2.1 "a" hmem⟩

/-- C3: swapping the two flattened configurations swaps the only-A and
only-B partitions, keeps the unchanged partition, and swaps the old/new
values inside each changed entry; diffing a configuration against itself
yields no changed, no only-A and no only-B entries. -/
theorem compare_configs_symmetry (A B : FlatConfig) :
    ((compare_flat B A).only_in_default = (compare_flat A B).only_in_customer)
  ∧ ((compare_flat B A).only_in_customer = (compare_flat A B).only_in_default)
  ∧ ((compare_flat B A).same_values = (compare_flat A B).same_values)
  ∧ ((compare_flat B A).different_values
      = (compare_flat A B).different_values.map (fun t => (t.1, t.2.2, t.2.1)))
  ∧ (compare_flat A A).different_values = []
  ∧ (compare_flat A A).only_in_default = []
  ∧ (compare_flat A A).only_in_customer = [] := by
  have hswap := classify_swap A B (sortedKeys A B) (fun k hk => (mem_sortedKeys A B k).1 hk)
  have hself := classify_self A (sortedKeys A A)
    (fun k hk => ((mem_sortedKeys A A k).1 hk).elim id id)
  have h1 : compare_flat B A = classifyKeys B A (sortedKeys A B) := by
    unfold compare_flat
    rw [sortedKeys_comm]
  rw [h1, hswap]
  exact ⟨rfl, rfl, rfl, rfl, hself.2.2, hself.1, hself.2.1⟩

/-- C8: when the customer configuration's top-level data field is absent,
null, or an empty mapping, compare_configs reports that defaults are in
use (carrying the default data) and performs no key-level diffing,
whatever the default configuration contains. -/
theorem compare_short_circuit_no_overrides (default_config customer_config : Value)
    (h : customer_config.getField "data" = none
       ∨ customer_config.getField "data" = some (.obj .nil)
       ∨ customer_config.getField "data" = some .null) :
    compare_configs default_config customer_config =
      .usingDefaults ((default_config.getField "data").getD (.obj .nil)) := by
  rcases h with h | h | h <;> simp [compare_configs, h, Value.truthy]

/-- Witness for C8 at a concrete pair of configurations. -/
theorem compare_short_circuit_no_overrides_inst :
    compare_configs (.obj (.cons "data" (.obj (.cons "x" (.num 1) .nil)) .nil)) (.obj .nil)
      = .usingDefaults (.obj (.cons "x" (.num 1) .nil)) :=
  (compare_short_circuit_no_overrides
    (.obj (.cons "data" (.obj (.cons "x" (.num 1) .nil)) .nil)) (.obj .nil)
    (.inl rfl)).trans (by decide)

theorem walk_calls_pos (fetch : Nat → Option Value) (fuel page : Nat) :
    1 ≤ (walkPages fetch (fuel + 1) page).2 := by
  simp only [walkPages]
  cases respData (fetch page) with
  | none => simp
  | some d =>
    simp only
    split
    · simp
    · split
      · simp
      · simp

theorem walkPages_succ (fetch : Nat → Option Value) (fuel page : Nat) :
    walkPages fetch (fuel + 1) page =
      match respData (fetch page) with
      | none => ([], 1)
      | some page_data =>
        if truthyOpt (page_data.getField "content") = false then ([], 1)
        else
          if ((page_data.getField "last").getD (.bool true)).truthy = true then
            (((page_data.getField "content").getD .null).listItems, 1)
          else
            (((page_data.getField "content").getD .null).listItems
                ++ (walkPages fetch fuel (page + 1)).1,
              (walkPages fetch fuel (page + 1)).2 + 1) := rfl

theorem walk_first_call_iff (fetch : Nat → Option Value) (fuel : Nat) :
    (get_organizations fetch (fuel + 2)).2 = 1 ↔ stopsImmediately (fetch 0) = true := by
  have hpos := walk_calls_pos fetch fuel 1
  simp only [get_organizations]
  rw [walkPages_succ]
  simp only [stopsImmediately]
  cases h : respData (fetch 0) with
  | none => simp
  | some d =>
    simp only
    by_cases hc : truthyOpt (d.getField "content") = false
    · simp [hc]
    · have hc' : truthyOpt (d.getField "content") = true := by
        cases hh : truthyOpt (d.getField "content")
        · exact absurd hh hc
        · rfl
      by_cases hl : ((d.getField "last").getD (.bool true)).truthy = true
      · simp [hc', hl]
      · have hl' : ((d.getField "last").getD (.bool true)).truthy = false := by
          cases hh : ((d.getField "last").getD (.bool true)).truthy
          · rfl
          · exact absurd hh hl
        simp [hc', hl']
        omega

theorem ceilDivNat_zero (s : Nat) : ceilDivNat 0 s = 0 := by
  cases s with
  | zero => rfl
  | succ m =>
    show (0 + (m + 1) - 1) / (m + 1) = 0
    exact Nat.div_eq_of_lt (by omega)

theorem ceilDivNat_eq_one {a s : Nat} (h0 : 0 < a) (hs : a ≤ s) : ceilDivNat a s = 1 := by
  unfold ceilDivNat
  exact Nat.div_eq_of_lt_le (by omega) (by omega)

theorem ceilDivNat_succ {a s : Nat} (hs : 0 < s) (h : s < a) :
    ceilDivNat a s = ceilDivNat (a - s) s + 1 := by
  unfold ceilDivNat
  have h1 : a + s - 1 = (a - s + s - 1) + s := by omega
  rw [h1, Nat.add_div_right _ hs]

theorem ceilDivNat_pos {a s : Nat} (hs : 0 < s) (h0 : 0 < a) : 0 < ceilDivNat a s := by
  unfold ceilDivNat
  have := (Nat.one_le_div_iff hs).2 (show s ≤ a + s - 1 by omega)
  omega

theorem respData_serverFetch (total size : Nat) (item : Nat → Value) (page : Nat) :
    respData (serverFetch total size item page) =
      some (.obj (.cons "content"
        (.arr (ValueSeq.ofList
          ((List.range (min ((page + 1) * size) total - page * size)).map
            (fun j => item (page * size + j)))))
        (.cons "last" (.bool (decide (total ≤ (page + 1) * size))) .nil))) := rfl

theorem getField_content_pair (c l : Value) :
    (Value.obj (.cons "content" c (.cons "last" l .nil))).getField "content" = some c := rfl

theorem getField_last_pair (c l : Value) :
    (Value.obj (.cons "content" c (.cons "last" l .nil))).getField "last" = some l := rfl

theorem truthy_arr_ofList (l : List Value) :
    (Value.arr (ValueSeq.ofList l)).truthy = !l.isEmpty := by
  cases l <;> rfl

theorem walk_server_calls (total size : Nat) (item : Nat → Value) (hs : 0 < size) :
    ∀ (fuel page : Nat), ceilDivNat (total - page * size) size < fuel →
    (walkPages (serverFetch total size item) fuel page).2
      = max 1 (ceilDivNat (total - page * size) size)
  | 0, _, hf => absurd hf (Nat.not_lt_zero _)
  | fuel + 1, page, hf => by
    have hmul : (page + 1) * size = page * size + size := by ring
    rw [walkPages_succ]
    split
    next heq =>
      rw [respData_serverFetch] at heq
      exact absurd heq (by simp)
    next pd heq =>
      rw [respData_serverFetch] at heq
      obtain rfl := (Option.some.inj heq).symm
      simp only [getField_content_pair, getField_last_pair, truthyOpt, Option.getD_some]
      rw [truthy_arr_ofList]
      by_cases hle : total ≤ page * size
      · have hn : min ((page + 1) * size) total - page * size = 0 := by omega
        have h0 : total - page * size = 0 := by omega
        rw [hn, h0, ceilDivNat_zero]
        simp
      · have hlt : page * size < total := by omega
        have hposR : 0 < total - page * size := by omega
        obtain ⟨m, hm⟩ : ∃ m, min ((page + 1) * size) total - page * size = m + 1 :=
          ⟨min ((page + 1) * size) total - page * size - 1, by omega⟩
        rw [hm]
        have hne : ((List.range (m + 1)).map
            (fun j => item (page * size + j))).isEmpty = false := by
          rw [List.range_succ_eq_map]
          rfl
        rw [hne]
        by_cases hlast : total ≤ (page + 1) * size
        · have hl : Value.truthy (.bool (decide (total ≤ (page + 1) * size))) = true := by
            simp [Value.truthy, hlast]
          rw [hl]
          rw [ceilDivNat_eq_one hposR (by omega)]
          simp
        · have hl : Value.truthy (.bool (decide (total ≤ (page + 1) * size))) = false := by
            simp [Value.truthy, hlast]
          rw [hl]
          have hRs : size < total - page * size := by omega
          have hstep := ceilDivNat_succ (a := total - page * size) hs hRs
          have hsub : total - (page + 1) * size = (total - page * size) - size := by omega
          have hf' : ceilDivNat (total - (page + 1) * size) size < fuel := by
            rw [hsub]
            omega
          have hrec := walk_server_calls total size item hs fuel (page + 1) hf'
          simp only [hrec]
          have hpos2 : 0 < ceilDivNat ((total - page * size) - size) size :=
            ceilDivNat_pos hs (by omega)
          rw [hsub] at *
          simp
          omega

/-- C4: starting at page 0, the walker performs exactly one fetch call iff
the first response is absent, carries no (truthy) data/content list, or
has a truthy last-page flag (defaulting to true when absent); on a
well-behaved server with serverTotal items and a fixed page size it makes
at most ceil(serverTotal/pageSize)+1 fetch calls, and exactly one when
the first page reports itself as last. -/
theorem pagination_walker_bounds :
    (∀ (fetch : Nat → Option Value) (fuel : Nat),
        ((get_organizations fetch (fuel + 2)).2 = 1 ↔ stopsImmediately (fetch 0) = true))
  ∧ (∀ (total size : Nat) (item : Nat → Value) (fuel : Nat),
        0 < size → ceilDivNat total size + 1 ≤ fuel →
        (get_organizations (serverFetch total size item) fuel).2 ≤ ceilDivNat total size + 1)
  ∧ (∀ (fetch : Nat → Option Value) (fuel : Nat) (d : Value),
        respData (fetch 0) = some d → d.getField "last" = some (.bool true) →
        (get_organizations fetch (fuel + 2)).2 = 1) := by
  refine ⟨walk_first_call_iff, ?_, ?_⟩
  · intro total size item fuel hs hfuel
    have h0 : total - 0 * size = total := by omega
    have hw := walk_server_calls total size item hs fuel 0 (by rw [h0]; omega)
    unfold get_organizations
    rw [hw, h0]
    omega
  · intro fetch fuel d hd hlast
    rw [walk_first_call_iff]
    unfold stopsImmediately
    rw [hd]
    simp [hlast]
    right
    rfl

/-- Witness for C4 on a concrete well-behaved server (3 items, page size
2, fuel 5). -/
theorem pagination_walker_bounds_inst :
    (get_organizations (serverFetch 3 2 (fun _ => Value.num 1)) 5).2 ≤ ceilDivNat 3 2 + 1 :=
  pagination_walker_bounds.2.1 3 2 (fun _ => Value.num 1) 5 (by decide) (by decide)

/-- C5 is false as stated: a response whose `content` field is present
but falsy (an empty list) does not determine the returned list — both
scripts fall through to the `pipelines` field, because the checks test
truthiness, not presence. -/
theorem extract_content_determines_cex :
    (Value.obj (.cons "content" (.arr .nil)
        (.cons "pipelines" (.arr (.cons (.num 1) .nil)) .nil))).hasField "content" = true
  ∧ extract_pipelines_list (Value.obj (.cons "content" (.arr .nil)
        (.cons "pipelines" (.arr (.cons (.num 1) .nil)) .nil)))
      = some (.arr (.cons (.num 1) .nil))
  ∧ extract_pipelines_appids (Value.obj (.cons "content" (.arr .nil)
        (.cons "pipelines" (.arr (.cons (.num 1) .nil)) .nil)))
      = some (.arr (.cons (.num 1) .nil))
  ∧ (Value.obj (.cons "content" (.arr .nil)
        (.cons "pipelines" (.arr (.cons (.num 1) .nil)) .nil))).getField "content"
      = some (.arr .nil) := by decide

/-- C5 (amended): the item list is extracted by checking, in order,
whether the payload is itself a list (return it), whether its `content`
field is truthy (return it), whether its `pipelines` field is truthy
(return it); after that, pipelinesByOrg additionally returns
`content`-or-empty when a `totalElements` key is present, and otherwise
the fall-through reports the unrecognized-shape diagnostic; a strategy
whose truthy response is recognized determines the loop's result. -/
theorem extract_pipelines_order :
    (∀ xs : ValueSeq,
        extract_pipelines_list (.arr xs) = some (.arr xs)
      ∧ extract_pipelines_appids (.arr xs) = some (.arr xs))
  ∧ (∀ d : Value, d.isArrB = false → truthyOpt (d.getField "content") = true →
        extract_pipelines_list d = d.getField "content"
      ∧ extract_pipelines_appids d = d.getField "content")
  ∧ (∀ d : Value, d.isArrB = false → truthyOpt (d.getField "content") = false →
        truthyOpt (d.getField "pipelines") = true →
        extract_pipelines_list d = d.getField "pipelines"
      ∧ extract_pipelines_appids d = d.getField "pipelines")
  ∧ (∀ d : Value, d.isArrB = false → truthyOpt (d.getField "content") = false →
        truthyOpt (d.getField "pipelines") = false →
        (extract_pipelines_appids d = none
        ∧ (d.hasField "totalElements" = true →
            extract_pipelines_list d = some ((d.getField "content").getD (.arr .nil)))
        ∧ (d.hasField "totalElements" = false → extract_pipelines_list d = none)))
  ∧ (∀ (extract : Value → Option Value) (r v : Value) (rest : List (Option Value)),
        r.truthy = true → extract (dataOf r) = some v →
        tryApproaches extract (some r :: rest) = v) := by
  refine ⟨fun xs => ⟨rfl, rfl⟩, ?_, ?_, ?_, ?_⟩
  · intro d hArr hc
    cases d with
    | arr xs => exact absurd hArr (by simp [Value.isArrB])
    | null => exact ⟨by simp [extract_pipelines_list, hc], by simp [extract_pipelines_appids, hc]⟩
    | bool b => exact ⟨by simp [extract_pipelines_list, hc], by simp [extract_pipelines_appids, hc]⟩
    | num n => exact ⟨by simp [extract_pipelines_list, hc], by simp [extract_pipelines_appids, hc]⟩
    | str s => exact ⟨by simp [extract_pipelines_list, hc], by simp [extract_pipelines_appids, hc]⟩
    | obj fs => exact ⟨by simp [extract_pipelines_list, hc], by simp [extract_pipelines_appids, hc]⟩
  · intro d hArr hc hp
    cases d with
    | arr xs => exact absurd hArr (by simp [Value.isArrB])
    | null => exact ⟨by simp [extract_pipelines_list, hc, hp],
        by simp [extract_pipelines_appids, hc, hp]⟩
    | bool b => exact ⟨by simp [extract_pipelines_list, hc, hp],
        by simp [extract_pipelines_appids, hc, hp]⟩
    | num n => exact ⟨by simp [extract_pipelines_list, hc, hp],
        by simp [extract_pipelines_appids, hc, hp]⟩
    | str s => exact ⟨by simp [extract_pipelines_list, hc, hp],
        by simp [extract_pipelines_appids, hc, hp]⟩
    | obj fs => exact ⟨by simp [extract_pipelines_list, hc, hp],
        by simp [extract_pipelines_appids, hc, hp]⟩
  · intro d hArr hc hp
    cases d with
    | arr xs => exact absurd hArr (by simp [Value.isArrB])
    | null => exact ⟨by simp [extract_pipelines_appids, hc, hp],
        fun ht => by simp [extract_pipelines_list, hc, hp, ht],
        fun ht => by simp [extract_pipelines_list, hc, hp, ht]⟩
    | bool b => exact ⟨by simp [extract_pipelines_appids, hc, hp],
        fun ht => by simp [extract_pipelines_list, hc, hp, ht],
        fun ht => by simp [extract_pipelines_list, hc, hp, ht]⟩
    | num n => exact ⟨by simp [extract_pipelines_appids, hc, hp],
        fun ht => by simp [extract_pipelines_list, hc, hp, ht],
        fun ht => by simp [extract_pipelines_list, hc, hp, ht]⟩
    | str s => exact ⟨by simp [extract_pipelines_appids, hc, hp],
        fun ht => by simp [extract_pipelines_list, hc, hp, ht],
        fun ht => by simp [extract_pipelines_list, hc, hp, ht]⟩
    | obj fs => exact ⟨by simp [extract_pipelines_appids, hc, hp],
        fun ht => by simp [extract_pipelines_list, hc, hp, ht],
        fun ht => by simp [extract_pipelines_list, hc, hp, ht]⟩
  · intro extract r v rest hr hx
    simp [tryApproaches, hr, hx]

/-- Witness for the amended C5 at a concrete response payload. -/
theorem extract_pipelines_order_inst :
    extract_pipelines_list (.obj (.cons "content" (.arr (.cons (.num 5) .nil)) .nil))
      = (Value.obj (.cons "content" (.arr (.cons (.num 5) .nil)) .nil)).getField "content" :=
  (extract_pipelines_order.2.1 (.obj (.cons "content" (.arr (.cons (.num 5) .nil)) .nil))
    (by decide) (by decide)).1

/-- C6 is false as stated: with the API token set but the account
identifier unset, pipelinesByOrg proceeds past its validation (the
account id is only compared against the editing placeholder, never
tested for absence), and the support-images script performs no
validation at all. -/
theorem env_check_missing_cex :
    pipelinesByOrg_exit (some "token") none = none
  ∧ supportImages_exit none none = none := by decide

/-- C6 (amended): the compare script raises (and so exits 1) before its
request whenever either variable is falsy; pipelineAppIDs exits 1
whenever either variable is absent; pipelinesByOrg exits 1 when the
token is falsy or the account id equals the placeholder string, and
otherwise proceeds even when the account identifier is absent; the
support-images script never stops before its request. -/
theorem env_check_behavior :
    (∀ acct key : Option String, (acct = none ∨ key = none) →
        get_harness_config_raises acct key = true)
  ∧ (∀ tok acct : Option String, (tok = none ∨ acct = none) →
        pipelineAppIDs_exit tok acct = some 1)
  ∧ (∀ tok acct : Option String, tok = none → pipelinesByOrg_exit tok acct = some 1)
  ∧ (∀ tok acct : Option String,
        pipelinesByOrg_exit tok acct = none ↔
          (pyFalsyStr tok = false ∧ acct ≠ some "your_account_id_here"))
  ∧ (∀ tok acct : Option String, supportImages_exit tok acct = none) := by
  refine ⟨?_, ?_, ?_, ?_, fun _ _ => rfl⟩
  · rintro acct key (rfl | rfl) <;> simp [get_harness_config_raises, pyFalsyStr]
  · rintro tok acct (rfl | rfl)
    · simp [pipelineAppIDs_exit, pyFalsyStr]
    · unfold pipelineAppIDs_exit
      split
      · rfl
      · simp [pyFalsyStr]
  · rintro tok acct rfl
    simp [pipelinesByOrg_exit, pyFalsyStr]
  · intro tok acct
    unfold pipelinesByOrg_exit
    split
    next h => simp [h]
    next h =>
      split
      next h2 => simp [h, h2]
      next h2 => simp [h, h2]

/-- Witness for the amended C6 at concrete environment states. -/
theorem env_check_behavior_inst :
    pipelineAppIDs_exit none (some "acct") = some 1 :=
  env_check_behavior.2.1 none (some "acct") (.inl rfl)

theorem tagsFold_no_match : ∀ (fs : ValueFields) (s : Finset String),
    (∀ k ∈ fs.keyList, keyMatches k = false) → tagsFold fs s = s
  | .nil, _, _ => rfl
  | .cons k v rest, s, h => by
    have hk := h k (List.mem_cons_self _ _)
    simp only [tagsFold, hk]
    simp only [Bool.false_eq_true, if_false]
    exact tagsFold_no_match rest s (fun k' hk' => h k' (List.mem_cons_of_mem _ hk'))

/-- C9: with the pyyaml entry points behaving as YAML prescribes on the
spec's concrete scenario, the extractor applied to
`tags:\n  appId: "svc-42"` returns exactly the singleton set containing
svc-42; and whenever the scanned text matches none of the five patterns
and no tag key matches, the extractor returns the empty set. -/
theorem extract_app_ids_scenarios :
    (∀ (safe_load : String → Option Value) (dump : Value → String),
        safe_load "tags:\n  appId: \"svc-42\"" =
          some (.obj (.cons "tags" (.obj (.cons "appId" (.str "svc-42") .nil)) .nil)) →
        dump (.obj (.cons "tags" (.obj (.cons "appId" (.str "svc-42") .nil)) .nil)) =
          "tags:\n  appId: svc-42\n" →
        extract_app_ids_from_yaml safe_load dump "tags:\n  appId: \"svc-42\"" = {"svc-42"})
  ∧ (∀ (safe_load : String → Option Value) (dump : Value → String) (s : String),
        (match safe_load s with
         | none => scanForAppIds s = []
         | some v => scanForAppIds (if v.truthy then dump v else s) = []
             ∧ ∀ k ∈ (tagFieldsOf v).keyList, keyMatches k = false) →
        extract_app_ids_from_yaml safe_load dump s = ∅) := by
  constructor
  · intro safe_load dump hparse hdump
    unfold extract_app_ids_from_yaml
    rw [hparse]
    simp only
    rw [if_pos (show (Value.obj (.cons "tags"
      (.obj (.cons "appId" (.str "svc-42") .nil)) .nil)).truthy = true from rfl)]
    rw [hdump]
    show insert "svc-42" (insert "svc-42" (insert "svc-42" (∅ : Finset String))) = {"svc-42"}
    simp
  · intro safe_load dump s h
    unfold extract_app_ids_from_yaml
    cases hp : safe_load s with
    | none =>
      rw [hp] at h
      simp only at h
      simp only [h, pySetOfList, List.foldl_nil]
    | some v =>
      rw [hp] at h
      simp only at h
      obtain ⟨h1, h2⟩ := h
      simp only [h1, pySetOfList, List.foldl_nil]
      exact tagsFold_no_match _ _ h2

/-- Witness for C9: the concrete scenario with the library calls fixed to
their factual results on this input. -/
theorem extract_app_ids_scenarios_inst :
    extract_app_ids_from_yaml
        (fun _ => some (.obj (.cons "tags" (.obj (.cons "appId" (.str "svc-42") .nil)) .nil)))
        (fun _ => "tags:\n  appId: svc-42\n")
        "tags:\n  appId: \"svc-42\"" = {"svc-42"} :=
  extract_app_ids_scenarios.1
    (fun _ => some (.obj (.cons "tags" (.obj (.cons "appId" (.str "svc-42") .nil)) .nil)))
    (fun _ => "tags:\n  appId: svc-42\n") rfl rfl
